import Mathlib

/-!
Verification development for the task-to-video aggregation pipeline of
`yt_gt_browser` (src/main.py and src/app_ui.py).

The Python functions are shallowly embedded as executable Lean definitions:

* `extract_youtube_urls` — the regex scan of `App.extract_youtube_urls`
  (main.py lines 95-102), implemented as a deterministic scanner.  The
  regex `(?:https?://)?(?:www\.)?(?:youtube\.com/watch?v=|youtu\.be/)(ID+)`
  is prefix-deterministic (no two alternatives share a first character), so
  a non-backtracking matcher is extensionally equal to the Python engine.
  `re.findall` scans left to right, resuming after each (non-empty) match,
  advancing one character on failure; the embedding uses fuel equal to the
  input length, which suffices since every step consumes at least one
  character.
* `parse_duration` / `durationGroups` — the `PT(?:(\d+)H)?(?:(\d+)M)?(?:(\d+)S)?`
  match of `parse_duration` (main.py 195-211).  `\d` is modelled as the
  ASCII digits (the durations come from the remote API and are ASCII).
* `durationSeconds` — the inline seconds computation of `show_main_ui`
  (main.py 400-425): `int(group(i) or 0)` combined as 3600 h + 60 m + s;
  a failed match (`re.match` returning `None`, whose `.group` raises) is
  modelled as `Option.none`.
* `fetch_tasks_with_videos`, `get_video_details`, `sort_tasks` follow below.
-/

namespace YtGt

/-- Characters of the identifier class `[a-zA-Z0-9_-]` of the YouTube regex. -/
def isIdChar (c : Char) : Bool :=
  c.isAlpha || c.isDigit || c = '_' || c = '-'

/-- Strip an expected literal prefix, returning the remainder on success.
Models a literal fragment of the regex. -/
def stripPfx : List Char → List Char → Option (List Char)
  | [], l => some l
  | _ :: _, [] => none
  | p :: ps, c :: cs => if p = c then stripPfx ps cs else none

/-- The optional group `(?:https?://)?`. -/
def dropScheme (l : List Char) : List Char :=
  match stripPfx "https://".data l with
  | some r => r
  | none =>
    match stripPfx "http://".data l with
    | some r => r
    | none => l

/-- The optional group `(?:www\.)?`. -/
def dropWww (l : List Char) : List Char :=
  match stripPfx "www.".data l with
  | some r => r
  | none => l

/-- The capture group `([a-zA-Z0-9_-]+)`: greedily take identifier
characters and fail when there are none. -/
def takeTok (r : List Char) : Option (List Char × List Char) :=
  if (r.takeWhile isIdChar).isEmpty then none
  else some (r.takeWhile isIdChar, r.dropWhile isIdChar)

/-- Attempt the full YouTube-URL regex at the current position, returning
the captured identifier and the rest of the input after the match. -/
def tryMatchAt (l : List Char) : Option (List Char × List Char) :=
  match stripPfx "youtube.com/watch?v=".data (dropWww (dropScheme l)) with
  | some r => takeTok r
  | none =>
    match stripPfx "youtu.be/".data (dropWww (dropScheme l)) with
    | some r => takeTok r
    | none => none

/-- The `re.findall` scan: try a match at each position; on success resume
after the match, on failure advance one character.  `fuel` bounds the number
of steps; every step consumes at least one character, so `l.length` fuel is
always enough (`findAllF_fuel` below). -/
def findAllF : Nat → List Char → List (List Char)
  | 0, _ => []
  | fuel + 1, l =>
    match tryMatchAt l with
    | some (tok, rest) => tok :: findAllF fuel rest
    | none =>
      match l with
      | [] => []
      | _ :: t => findAllF fuel t

/-- `App.extract_youtube_urls` (main.py 95-102).  A `None` argument is the
`Option.none` case; the Python `if not text` guard also catches the empty
string. -/
def extract_youtube_urls (text : Option String) : List String :=
  match text with
  | none => []
  | some t => if t = "" then [] else (findAllF t.data.length t.data).map (fun cs => ⟨cs⟩)

/-!
## DurationCodec

Embedding of the regex `PT(?:(\d+)H)?(?:(\d+)M)?(?:(\d+)S)?` shared by
`parse_duration` (main.py 195-211, app_ui.py 251-267) and the inline
seconds computations (main.py 320-348 and 400-425).  Each optional group
greedily takes a maximal ASCII digit run and commits only when the
following unit letter is present; since a maximal digit run is never
followed by another digit, this is exactly the Python engine's behaviour.
-/

/-- One optional group `(?:(\d+)X)?`: the captured digit run (if the group
participates) and the remaining input. -/
def grabComp (letter : Char) (l : List Char) : Option (List Char) × List Char :=
  match l.takeWhile Char.isDigit, l.dropWhile Char.isDigit with
  | [], _ => (none, l)
  | _ :: _, c :: rest => if c = letter then (some (l.takeWhile Char.isDigit), rest) else (none, l)
  | _ :: _, [] => (none, l)

/-- The three captured groups of `re.match(r"PT...", s)`: `none` when the
match fails (input does not start with `PT`), otherwise the optional digit
runs for hours, minutes, seconds. -/
def durationGroups (s : String) :
    Option (Option (List Char) × Option (List Char) × Option (List Char)) :=
  match stripPfx "PT".data s.data with
  | none => none
  | some r =>
    let (h, r1) := grabComp 'H' r
    let (m, r2) := grabComp 'M' r1
    let (sec, _) := grabComp 'S' r2
    some (h, m, sec)

/-- `" ".flatten(parts)` at the character level. -/
def joinSp : List (List Char) → List Char
  | [] => []
  | [p] => p
  | p :: q :: rest => p ++ ' ' :: joinSp (q :: rest)

/-- `parse_duration` (main.py 195-211, identically app_ui.py 251-267):
human-readable rendering, `"Unknown"` when the regex match fails.  A
captured group is a non-empty digit string, so Python's truthiness test
`if hours:` coincides with the group being present. -/
def parse_duration (s : String) : String :=
  match durationGroups s with
  | none => "Unknown"
  | some (h, m, sec) =>
    ⟨joinSp ((h.map (· ++ ['h'])).toList ++ (m.map (· ++ ['m'])).toList
      ++ (sec.map (· ++ ['s'])).toList)⟩

/-- Numeric value of a digit run, as Python's `int`. -/
def digitsToNat (l : List Char) : Nat :=
  l.foldl (fun n c => 10 * n + (c.toNat - 48)) 0

/-- `int(group or 0)` for one captured group. -/
def groupVal (g : Option (List Char)) : Nat :=
  (g.map digitsToNat).getD 0

/-- The inline total-seconds computation of `show_main_ui` (main.py
400-425) and of the Duration sort key (main.py 320-348):
`int(g1 or 0)*3600 + int(g2 or 0)*60 + int(g3 or 0)`.  When `re.match`
fails the Python code dereferences `None` and raises; that case is
`Option.none`. -/
def durationSeconds (s : String) : Option Nat :=
  (durationGroups s).map fun g => 3600 * groupVal g.1 + 60 * groupVal g.2.1 + groupVal g.2.2

/-- Modelled from the spec: `utils.calculate_duration_seconds`, imported by
app_ui.py but whose file `utils.py` is not among the sources.  Per spec
§4.6, `DurationCodec.parse` supports the restricted pattern `PT[nH][nM][nS]`,
counts any absent component as 0, and on malformed input yields the defined
sentinel 0 rather than raising. -/
def calculate_duration_seconds (s : String) : Nat :=
  (durationSeconds s).getD 0

/-!
## TaskVideoAggregator

`App.fetch_tasks_with_videos` (main.py 104-165) and `App.get_video_details`
(main.py 167-192).  The paginated task API is modelled as the finite
sequence of responses the server would hand out: each response is a list of
items together with a flag telling whether a `nextPageToken` accompanies it;
the client loop of the source requests the next response exactly while the
flag is set.  Credentials are modelled by the two attributes the source
reads (`expired`, `valid`); the guard in both operations is only the Python
truthiness test `not self.credentials`, i.e. the credential being `None`.
-/

/-- The two credential attributes read by `App.is_authenticated`. -/
structure Cred where
  expired : Bool
  valid : Bool
deriving DecidableEq, Repr

/-- A task record as consumed by the source: `task.get` with default `""`. -/
structure SrcTask where
  title : String
  notes : String
  status : String
  due : String
deriving DecidableEq, Repr

/-- A task list: its display title and the paginated responses of its
`tasks().list` endpoint. -/
structure SrcTaskList where
  title : String
  taskPages : List (List SrcTask × Bool)
deriving DecidableEq, Repr

/-- One element of the `tasks_with_videos` output (main.py 151-160). -/
structure Entry where
  task_list : String
  task_title : String
  task_notes : String
  youtube_ids : List String
  status : String
  due : String
deriving DecidableEq, Repr

/-- The pagination loop: take a response, and continue exactly when it
carries a continuation token. -/
def collectPages {α : Type} : List (List α × Bool) → List α
  | [] => []
  | (items, more) :: rest => items ++ (if more then collectPages rest else [])

/-- Every response except possibly the last carries a continuation token. -/
def allLinked {α : Type} : List (List α × Bool) → Bool
  | [] => true
  | [_] => true
  | (_, more) :: p :: rest => more && allLinked (p :: rest)

/-- The per-task body of the loop (main.py 134-160): skip completed tasks,
extract links from title then notes, keep the task only when the combined
link list is non-empty. -/
def processTask (tlTitle : String) (t : SrcTask) : Option Entry :=
  if t.status = "completed" then none
  else
    if (extract_youtube_urls (some t.title) ++ extract_youtube_urls (some t.notes)).isEmpty
    then none
    else some ⟨tlTitle, t.title, t.notes,
      extract_youtube_urls (some t.title) ++ extract_youtube_urls (some t.notes),
      t.status, t.due⟩

/-- The task-processing pass over an already-enumerated list of task lists. -/
def processLists (tls : List SrcTaskList) : List Entry :=
  (tls.map (fun tl => (collectPages tl.taskPages).filterMap (processTask tl.title))).flatten

/-- `App.fetch_tasks_with_videos` (main.py 104-165). -/
def fetch_tasks_with_videos (cred : Option Cred)
    (tlPages : List (List SrcTaskList × Bool)) : List Entry :=
  match cred with
  | none => []
  | some _ => processLists (collectPages tlPages)

/-- Refinement reference for C3, following the spec's words: enumerate
every task list on every page and every task on every page, ignoring the
continuation tokens. -/
def fetchTasksAllPages (cred : Option Cred)
    (tlPages : List (List SrcTaskList × Bool)) : List Entry :=
  match cred with
  | none => []
  | some _ =>
    (((tlPages.map Prod.fst).flatten).map
      (fun tl => ((tl.taskPages.map Prod.fst).flatten).filterMap (processTask tl.title))).flatten

/-- An item of a `videos().list` response (main.py 183-190). -/
structure RespItem where
  id : String
  title : String
  thumbnail : String
  channel : String
  duration : String
  publishedAt : String
deriving DecidableEq, Repr

/-- The record stored in `video_details` for one response item. -/
structure VideoDetail where
  title : String
  thumbnail : String
  channel : String
  duration : String
  publishedAt : String
deriving DecidableEq, Repr

def detailOf (it : RespItem) : VideoDetail :=
  ⟨it.title, it.thumbnail, it.channel, it.duration, it.publishedAt⟩

/-- `for i in range(0, len(video_ids), 50): batch = video_ids[i:i+50]`:
consecutive slices of 50.  Fuel-based for kernel reducibility; the input
length is always enough fuel since each step consumes 50 > 0 elements. -/
def batchesGo : Nat → List String → List (List String)
  | 0, _ => []
  | _ + 1, [] => []
  | n + 1, l@(_ :: _) => l.take 50 :: batchesGo n (l.drop 50)

/-- The batch decomposition of the loop in main.py 176-177. -/
def batches50 (l : List String) : List (List String) :=
  batchesGo l.length l

/-- The batch loop of `get_video_details` (main.py 176-190): issue each
batch in turn; a raised exception aborts the whole call (`Except.error`),
otherwise accumulate `video_details[item["id"]] = …` assignments. -/
def gvdRun {ε : Type} (api : List String → Except ε (List RespItem)) :
    List (String × VideoDetail) → List (List String) →
    Except ε (List (String × VideoDetail))
  | acc, [] => .ok acc
  | acc, b :: bs =>
    match api b with
    | .error e => .error e
    | .ok items => gvdRun api (acc ++ items.map (fun it => (it.id, detailOf it))) bs

/-- `App.get_video_details` (main.py 167-192).  The remote call is the
`api` oracle; a batch on which it raises is `Except.error`. -/
def get_video_details {ε : Type} (cred : Option Cred)
    (api : List String → Except ε (List RespItem)) (video_ids : List String) :
    Except ε (List (String × VideoDetail)) :=
  if cred.isNone || video_ids.isEmpty then .ok []
  else gvdRun api [] (batches50 video_ids)

/-- Refinement reference for C1, following the spec's words: first
deduplicate the identifiers (set semantics — represented by `List.dedup`,
order irrelevant for the call count), then batch. -/
def resolveBatchesSpec (ids : List String) : List (List String) :=
  batches50 ids.dedup

/-!
## SortEngine

`sort_tasks` of app_ui.py 94-139 (and, as `sort_tasks_main`, the older
variant of main.py 314-354).  Python's stable `list.sort(key=…)` is
embedded as `List.insertionSort` on the keyed relation, which Mathlib
proves sorted and stable — extensionally the unique stable sort.  The
non-deterministic `random.shuffle` is an oracle argument `shuf`.
-/

/-- Python's `str.lower` (over the ASCII data that occurs here). -/
def pyLower (s : String) : String :=
  ⟨s.data.map Char.toLower⟩

/-- Stable sort by a key into a linear order. -/
def sortByKey {β : Type} [LinearOrder β] (key : Entry → β) (l : List Entry) :
    List Entry :=
  letI : DecidableRel (fun a b : Entry => key a ≤ key b) :=
    fun a b => inferInstanceAs (Decidable (key a ≤ key b))
  l.insertionSort (fun a b => key a ≤ key b)

/-- First video of the task that resolved (app_ui.py 100-107, 127-135). -/
def firstDetail (vd : String → Option VideoDetail) : List String → Option VideoDetail
  | [] => none
  | v :: rest =>
    match vd v with
    | some d => some d
    | none => firstDetail vd rest

/-- Alphabetical key of app_ui.py: lowercased title of the first resolved
video, `""` when none resolves. -/
def titleKey (vd : String → Option VideoDetail) (t : Entry) : String :=
  ((firstDetail vd t.youtube_ids).map (fun d => pyLower d.title)).getD ""

/-- Channel key of app_ui.py: lowercased channel of the first resolved
video, `""` when none resolves. -/
def channelKey (vd : String → Option VideoDetail) (t : Entry) : String :=
  ((firstDetail vd t.youtube_ids).map (fun d => pyLower d.channel)).getD ""

/-- Duration key of app_ui.py 114-123: total seconds over the task's
resolved videos. -/
def durKey (vd : String → Option VideoDetail) (t : Entry) : Nat :=
  (t.youtube_ids.filterMap
    (fun v => (vd v).map (fun d => calculate_duration_seconds d.duration))).sum

/-- `sort_tasks` (app_ui.py 94-139). -/
def sort_tasks (shuf : List Entry → List Entry) (tasks : List Entry)
    (vd : String → Option VideoDetail) (criteria : String) : List Entry :=
  if criteria = "Alphabetical" then sortByKey (titleKey vd) tasks
  else if criteria = "Task List" then sortByKey (fun t => pyLower t.task_list) tasks
  else if criteria = "Duration" then sortByKey (durKey vd) tasks
  else if criteria = "Channel" then sortByKey (channelKey vd) tasks
  else if criteria = "Shuffle" then shuf tasks
  else tasks

/-- Duration key of main.py 320-348: every video id is looked up without a
presence guard and its duration re-matched; a missing id or failed match
raises, modelled as `none`. -/
def durKeyMain (vd : String → Option VideoDetail) (t : Entry) : Option Nat :=
  (t.youtube_ids.mapM (fun v => (vd v).bind (fun d => durationSeconds d.duration))).map
    List.sum

/-- Channel key of main.py 349-352: channel of the first id, unguarded. -/
def chanKeyMain (vd : String → Option VideoDetail) (t : Entry) : Option String :=
  (t.youtube_ids.head?.bind vd).map (fun d => pyLower d.channel)

/-- `sort_tasks` (main.py 314-354); `none` models a raised exception. -/
def sort_tasks_main (shuf : List Entry → List Entry) (tasks : List Entry)
    (vd : String → Option VideoDetail) (criteria : String) : Option (List Entry) :=
  if criteria = "Alphabetical" then some (sortByKey (fun t => pyLower t.task_title) tasks)
  else if criteria = "Task List" then some (sortByKey (fun t => pyLower t.task_list) tasks)
  else if criteria = "Duration" then
    if tasks.all (fun t => (durKeyMain vd t).isSome) then
      some (sortByKey (fun t => (durKeyMain vd t).getD 0) tasks)
    else none
  else if criteria = "Channel" then
    if tasks.all (fun t => (chanKeyMain vd t).isSome) then
      some (sortByKey (fun t => (chanKeyMain vd t).getD "") tasks)
    else none
  else if criteria = "Shuffle" then some (shuf tasks)
  else some tasks

/-!
## Concrete instances used as witnesses and counterexamples
-/

/-- A credential that is well-formed (not expired, valid). -/
def okCred : Cred := ⟨false, true⟩

/-- A credential that is expired and not valid. -/
def badCred : Cred := ⟨true, false⟩

/-- A non-completed task whose title carries one video link. -/
def wTask : SrcTask := ⟨"see https://youtu.be/ok", "", "needsAction", ""⟩

/-- A completed task whose title carries a valid video link. -/
def wTaskDone : SrcTask := ⟨"see https://youtu.be/gone", "", "completed", ""⟩

/-- A one-page task API exposing `wTask` and `wTaskDone` in one list. -/
def wPages : List (List SrcTaskList × Bool) :=
  [([⟨"L", [([wTask, wTaskDone], false)]⟩], false)]

/-- The aggregation entry produced from `wTask`. -/
def wEntry : Entry := ⟨"L", "see https://youtu.be/ok", "", ["ok"], "needsAction", ""⟩

/-- A task whose link embeds the given marker. -/
def pgTask (marker : String) : SrcTask :=
  ⟨"youtu.be/" ++ marker, "", "needsAction", ""⟩

/-- A task API with a single list whose tasks span three linked pages of
two items each (the spec's pagination scenario). -/
def pgPages : List (List SrcTaskList × Bool) :=
  [([⟨"A", [([pgTask "p1a", pgTask "p1b"], true),
            ([pgTask "p2a", pgTask "p2b"], true),
            ([pgTask "p3a", pgTask "p3b"], false)]⟩], false)]

/-- 51 identifiers with repetitions: fifty copies of `"a"` then `"b"`. -/
def ids51 : List String := List.replicate 50 "a" ++ ["b"]

/-- A video response item for identifier `"a"`. -/
def itemA : RespItem := ⟨"a", "t", "th", "c", "PT1S", "p"⟩

/-- A video API that answers batches of exactly 50 identifiers and raises
on any other batch: on `ids51` the first batch succeeds, the second fails. -/
def apiOneBad : List String → Except Unit (List RespItem) :=
  fun b => if b.length = 50 then .ok [itemA] else .error ()

/-!
## Helper lemmas
-/

/- Length facts showing the scanner's fuel is sufficient. -/

theorem stripPfx_length {p l r : List Char} (h : stripPfx p l = some r) :
    r.length + p.length = l.length := by
  induction p generalizing l with
  | nil => simp [stripPfx] at h; simp [h]
  | cons x xs ih =>
    match l with
    | [] => simp [stripPfx] at h
    | c :: cs =>
      simp only [stripPfx] at h
      split at h
      · have := ih h
        simp [List.length_cons]
        omega
      · exact absurd h (by simp)

theorem dropScheme_length (l : List Char) : (dropScheme l).length ≤ l.length := by
  unfold dropScheme
  split
  · next h => have := stripPfx_length h; omega
  · split
    · next h => have := stripPfx_length h; omega
    · exact le_rfl

theorem dropWww_length (l : List Char) : (dropWww l).length ≤ l.length := by
  unfold dropWww
  split
  · next h => have := stripPfx_length h; omega
  · exact le_rfl

theorem takeTok_length {r tok rest : List Char} (h : takeTok r = some (tok, rest)) :
    rest.length ≤ r.length := by
  unfold takeTok at h
  split at h
  · exact absurd h (by simp)
  · simp only [Option.some.injEq, Prod.mk.injEq] at h
    obtain ⟨-, h2⟩ := h
    subst h2
    exact (List.dropWhile_sublist _).length_le

theorem tryMatchAt_length {l tok rest : List Char}
    (h : tryMatchAt l = some (tok, rest)) : rest.length < l.length := by
  unfold tryMatchAt at h
  have h2 : (dropWww (dropScheme l)).length ≤ l.length :=
    le_trans (dropWww_length _) (dropScheme_length _)
  split at h
  · next hs =>
    have e1 := stripPfx_length hs
    have e2 := takeTok_length h
    have e3 : ("youtube.com/watch?v=".data).length = 20 := by decide
    omega
  · split at h
    · next hs =>
      have e1 := stripPfx_length hs
      have e2 := takeTok_length h
      have e3 : ("youtu.be/".data).length = 9 := by decide
      omega
    · exact absurd h (by simp)

theorem findAllF_nil (fuel : Nat) : findAllF fuel [] = [] := by
  cases fuel with
  | zero => rfl
  | succ n => simp [findAllF, show tryMatchAt [] = none from rfl]

theorem findAllF_succ_some (fuel : Nat) {l tok rest : List Char}
    (h : tryMatchAt l = some (tok, rest)) :
    findAllF (fuel + 1) l = tok :: findAllF fuel rest := by
  simp [findAllF, h]

theorem findAllF_succ_none (fuel : Nat) {c : Char} {t : List Char}
    (h : tryMatchAt (c :: t) = none) :
    findAllF (fuel + 1) (c :: t) = findAllF fuel t := by
  simp [findAllF, h]

/-- Sanity of the fuel-based scanner: any fuel of at least the input length
computes the same result, so `extract_youtube_urls` is fuel-independent. -/
theorem findAllF_fuel : ∀ (fuel : Nat) (l : List Char), l.length ≤ fuel →
    findAllF (fuel + 1) l = findAllF fuel l := by
  intro fuel
  induction fuel with
  | zero =>
    intro l hl
    have : l = [] := List.eq_nil_of_length_eq_zero (Nat.le_zero.mp hl)
    subst this
    rfl
  | succ n ih =>
    intro l hl
    cases hm : tryMatchAt l with
    | some p =>
      obtain ⟨tok, rest⟩ := p
      have := tryMatchAt_length hm
      rw [findAllF_succ_some (n + 1) hm, findAllF_succ_some n hm, ih rest (by omega)]
    | none =>
      cases l with
      | nil => rw [findAllF_nil, findAllF_nil]
      | cons c t =>
        simp only [List.length_cons] at hl
        rw [findAllF_succ_none (n + 1) hm, findAllF_succ_none n hm, ih t (by omega)]

theorem stripPfx_none_iff {p l : List Char} :
    stripPfx p l = none ↔ ¬ p <+: l := by
  induction p generalizing l with
  | nil => simp [stripPfx, List.nil_prefix]
  | cons x xs ih =>
    cases l with
    | nil => simp [stripPfx]
    | cons c cs =>
      by_cases hx : x = c
      · subst hx
        simp [stripPfx, ih, List.cons_prefix_cons]
      · simp [stripPfx, hx, List.cons_prefix_cons]

theorem tryMatchAt_tok {l tok rest : List Char}
    (h : tryMatchAt l = some (tok, rest)) :
    tok ≠ [] ∧ ∀ c ∈ tok, isIdChar c = true := by
  have key : ∀ r : List Char, takeTok r = some (tok, rest) →
      tok ≠ [] ∧ ∀ c ∈ tok, isIdChar c = true := by
    intro r hr
    unfold takeTok at hr
    split at hr
    · exact absurd hr (by simp)
    · next hne =>
      simp only [Option.some.injEq, Prod.mk.injEq] at hr
      obtain ⟨h1, -⟩ := hr
      subst h1
      refine ⟨by simpa [List.isEmpty_iff] using hne, ?_⟩
      intro c hc
      exact List.mem_takeWhile_imp hc
  unfold tryMatchAt at h
  split at h
  · exact key _ h
  · split at h
    · exact key _ h
    · exact absurd h (by simp)

theorem findAllF_tok {fuel : Nat} : ∀ {l : List Char} {cs : List Char},
    cs ∈ findAllF fuel l → cs ≠ [] ∧ ∀ c ∈ cs, isIdChar c = true := by
  induction fuel with
  | zero => intro l cs h; exact absurd h (by simp [findAllF])
  | succ n ih =>
    intro l cs h
    cases hm : tryMatchAt l with
    | some p =>
      obtain ⟨tok, rest⟩ := p
      rw [findAllF_succ_some n hm] at h
      rcases List.mem_cons.mp h with rfl | h2
      · exact tryMatchAt_tok hm
      · exact ih h2
    | none =>
      cases l with
      | nil => rw [findAllF_nil] at h; exact absurd h (by simp)
      | cons c t =>
        rw [findAllF_succ_none n hm] at h
        exact ih h

theorem joinSp_chars : ∀ {ps : List (List Char)} {c : Char},
    c ∈ joinSp ps → c = ' ' ∨ ∃ p ∈ ps, c ∈ p := by
  intro ps
  induction ps with
  | nil => intro c h; exact absurd h (by simp [joinSp])
  | cons p rest ih =>
    intro c h
    cases rest with
    | nil =>
      simp only [joinSp] at h
      exact Or.inr ⟨p, by simp, h⟩
    | cons q rest2 =>
      simp only [joinSp, List.mem_append, List.mem_cons] at h
      rcases h with h | h | h
      · exact Or.inr ⟨p, by simp, h⟩
      · exact Or.inl h
      · rcases ih h with h2 | ⟨p2, hp2, hc2⟩
        · exact Or.inl h2
        · exact Or.inr ⟨p2, by simp [List.mem_cons] at hp2 ⊢; tauto, hc2⟩

theorem grabComp_digits {letter : Char} {l : List Char} {g rest : List Char}
    (h : grabComp letter l = (some g, rest)) : ∀ c ∈ g, c.isDigit = true := by
  unfold grabComp at h
  split at h
  · exact absurd h (by simp)
  · split at h
    · simp only [Prod.mk.injEq, Option.some.injEq] at h
      obtain ⟨h1, -⟩ := h
      subst h1
      intro c hc
      exact List.mem_takeWhile_imp hc
    · exact absurd h (by simp)
  · exact absurd h (by simp)

theorem durationGroups_digits {s : String}
    {h m sec : Option (List Char)}
    (hg : durationGroups s = some (h, m, sec)) :
    (∀ g ∈ h, ∀ c ∈ g, c.isDigit = true)
    ∧ (∀ g ∈ m, ∀ c ∈ g, c.isDigit = true)
    ∧ (∀ g ∈ sec, ∀ c ∈ g, c.isDigit = true) := by
  unfold durationGroups at hg
  split at hg
  · exact absurd hg (by simp)
  · next r heq =>
    cases e1 : grabComp 'H' r with
    | mk h1 r1 =>
      cases e2 : grabComp 'M' r1 with
      | mk m1 r2 =>
        cases e3 : grabComp 'S' r2 with
        | mk s1 r3 =>
          simp only [e1, e2, e3, Option.some.injEq, Prod.mk.injEq] at hg
          obtain ⟨rfl, rfl, rfl⟩ := hg
          refine ⟨?_, ?_, ?_⟩
          · intro g hgm
            cases h1 with
            | none => exact absurd hgm (by simp)
            | some gg =>
              obtain rfl : gg = g := by simpa using hgm
              exact grabComp_digits e1
          · intro g hgm
            cases m1 with
            | none => exact absurd hgm (by simp)
            | some gg =>
              obtain rfl : gg = g := by simpa using hgm
              exact grabComp_digits e2
          · intro g hgm
            cases s1 with
            | none => exact absurd hgm (by simp)
            | some gg =>
              obtain rfl : gg = g := by simpa using hgm
              exact grabComp_digits e3

/-- When the match succeeds, the rendered string consists of digits,
spaces and unit letters, hence is never the sentinel. -/
theorem parse_duration_ne_sentinel {s : String} {g}
    (hg : durationGroups s = some g) : parse_duration s ≠ "Unknown" := by
  obtain ⟨h, m, sec⟩ := g
  intro habs
  unfold parse_duration at habs
  rw [hg] at habs
  have hchars := durationGroups_digits hg
  have hU : 'U' ∈ ("Unknown" : String).data := by decide
  rw [← habs] at hU
  simp only [String.data] at hU
  rcases joinSp_chars hU with hsp | ⟨p, hp, hcp⟩
  · exact absurd hsp (by decide)
  · simp only [List.mem_append] at hp
    have units : ∀ (g0 : Option (List Char)) (u : Char),
        (∀ gg ∈ g0, ∀ c ∈ gg, c.isDigit = true) →
        p ∈ (g0.map (· ++ [u])).toList → 'U' ∈ p → 'U'.isDigit = true ∨ 'U' = u := by
      intro g0 u hdig hmem hUp
      cases g0 with
      | none => exact absurd hmem (by simp)
      | some gg =>
        obtain rfl : p = gg ++ [u] := by simpa using hmem
        rcases List.mem_append.mp hUp with h1 | h1
        · exact Or.inl (hdig gg rfl 'U' h1)
        · exact Or.inr (by simpa using h1)
    rcases hp with (hp | hp) | hp
    · rcases units h 'h' hchars.1 hp hcp with hd | he
      · exact absurd hd (by decide)
      · exact absurd he (by decide)
    · rcases units m 'm' hchars.2.1 hp hcp with hd | he
      · exact absurd hd (by decide)
      · exact absurd he (by decide)
    · rcases units sec 's' hchars.2.2 hp hcp with hd | he
      · exact absurd hd (by decide)
      · exact absurd he (by decide)

theorem durationGroups_none_iff {s : String} :
    durationGroups s = none ↔ ¬ ("PT".data <+: s.data) := by
  unfold durationGroups
  rw [← stripPfx_none_iff]
  split
  · next he => simp [he]
  · next r he => simp [he]

/-!
## Claim theorems
-/

/-- C5: for every text input — `None`, the empty string, or arbitrary
garbage — `extract_youtube_urls` returns only identifiers matching
`[A-Za-z0-9_-]+` (non-empty, all characters in the class), in order of
appearance with duplicates preserved (witnessed by the concrete multi-link
input), returns the empty sequence on absent text or text without a
recognized link, and, being a total function, never raises. -/
theorem extract_ids_wellformed :
    (∀ t : String, ∀ s ∈ extract_youtube_urls (some t),
        s.data ≠ [] ∧ ∀ c ∈ s.data, isIdChar c = true)
    ∧ extract_youtube_urls none = []
    ∧ extract_youtube_urls (some "") = []
    ∧ extract_youtube_urls (some "no recognized link in this garbage $%&") = []
    ∧ extract_youtube_urls
        (some "https://youtu.be/abc youtube.com/watch?v=abc www.youtu.be/xyz")
      = ["abc", "abc", "xyz"] := by
  refine ⟨?_, rfl, rfl, by decide, by decide⟩
  intro t s hs
  by_cases ht : t = ""
  · subst ht
    exact absurd hs (List.not_mem_nil s)
  · rw [show extract_youtube_urls (some t)
        = (findAllF t.data.length t.data).map (fun cs => ⟨cs⟩) by
      simp [extract_youtube_urls, ht]] at hs
    rw [List.mem_map] at hs
    obtain ⟨cs, hcs, rfl⟩ := hs
    exact findAllF_tok hcs

theorem extract_ids_wellformed_witness :
    ("abc" ∈ extract_youtube_urls (some "https://youtu.be/abc"))
    ∧ ("abc" : String).data ≠ [] ∧ ∀ c ∈ ("abc" : String).data, isIdChar c = true := by
  refine ⟨by decide, ?_⟩
  exact extract_ids_wellformed.1 "https://youtu.be/abc" "abc" (by decide)

/-- C6: the duration parse maps `"PT1H2M3S"` to 3723 seconds and `"PT45S"`
to 45 seconds, counts each absent H/M/S component as 0 (instances with a
missing hour, minute and second component, and the fully absent `"PT"`),
and on malformed input such as `"garbage"` yields the defined sentinel:
`parse_duration` returns `"Unknown"` and the spec-modelled
`calculate_duration_seconds` returns 0, with no exception. -/
theorem duration_parse_values :
    durationSeconds "PT1H2M3S" = some 3723
    ∧ durationSeconds "PT45S" = some 45
    ∧ durationSeconds "PT1H" = some 3600
    ∧ durationSeconds "PT2M" = some 120
    ∧ durationSeconds "PT1H3S" = some 3603
    ∧ durationSeconds "PT" = some 0
    ∧ calculate_duration_seconds "PT1H2M3S" = 3723
    ∧ calculate_duration_seconds "PT45S" = 45
    ∧ calculate_duration_seconds "garbage" = 0
    ∧ parse_duration "garbage" = "Unknown" := by
  decide

/-- C9: `parse_duration` returns the sentinel `"Unknown"` exactly when the
input does not start with the literal `"PT"`; when the input starts with
`"PT"` but no H/M/S component is recognized (all three captured groups
absent, e.g. `"PT"` or `"PTxyz"`), it returns the empty string instead. -/
theorem parse_duration_sentinel :
    (∀ s : String, parse_duration s = "Unknown" ↔ ¬ ("PT".data <+: s.data))
    ∧ (∀ s : String, durationGroups s = some (none, none, none) →
        parse_duration s = "") := by
  constructor
  · intro s
    constructor
    · intro h
      rw [← durationGroups_none_iff]
      cases hg : durationGroups s with
      | none => rfl
      | some g => exact absurd h (parse_duration_ne_sentinel hg)
    · intro h
      have hn : durationGroups s = none := durationGroups_none_iff.mpr h
      unfold parse_duration
      rw [hn]
  · intro s h
    unfold parse_duration
    rw [h]
    rfl

theorem parse_duration_sentinel_witness :
    (parse_duration "garbage" = "Unknown" ↔ ¬ ("PT".data <+: "garbage".data))
    ∧ (durationGroups "PTxyz" = some (none, none, none)
        ∧ parse_duration "PTxyz" = "") :=
  ⟨parse_duration_sentinel.1 "garbage",
    by decide, parse_duration_sentinel.2 "PTxyz" (by decide)⟩

theorem collectPages_linked {α : Type} :
    ∀ ps : List (List α × Bool), allLinked ps = true →
      collectPages ps = (ps.map Prod.fst).flatten := by
  intro ps
  induction ps with
  | nil => intro; rfl
  | cons p rest ih =>
    obtain ⟨items, more⟩ := p
    intro h
    cases rest with
    | nil =>
      simp [collectPages, allLinked]
    | cons q rest2 =>
      simp only [allLinked, Bool.and_eq_true] at h
      obtain ⟨hm, hl⟩ := h
      subst hm
      rw [show collectPages ((items, true) :: q :: rest2)
            = items ++ collectPages (q :: rest2) from rfl, ih hl]
      rfl

theorem processTask_status {tlTitle : String} {t : SrcTask} {e : Entry}
    (h : processTask tlTitle t = some e) : e.status = t.status ∧ t.status ≠ "completed" := by
  unfold processTask at h
  split at h
  · exact absurd h (by simp)
  · next hnc =>
    split at h
    · exact absurd h (by simp)
    · simp only [Option.some.injEq] at h
      subst h
      exact ⟨rfl, hnc⟩

/-- C4: every task the task API reports with status `"completed"` is
skipped by `fetch_tasks_with_videos`: no output entry carries (or stems
from a task with) the completed status, even when the task's title or
notes contain valid video links. -/
theorem completed_tasks_excluded (cred : Option Cred)
    (tlPages : List (List SrcTaskList × Bool)) :
    ∀ e ∈ fetch_tasks_with_videos cred tlPages, e.status ≠ "completed" := by
  intro e he
  cases cred with
  | none => exact absurd he (List.not_mem_nil e)
  | some c =>
    unfold fetch_tasks_with_videos processLists at he
    simp only [List.mem_flatten, List.mem_map] at he
    obtain ⟨es, ⟨tl, -, rfl⟩, hee⟩ := he
    rw [List.mem_filterMap] at hee
    obtain ⟨t, -, hpt⟩ := hee
    have := processTask_status hpt
    rw [this.1]
    exact this.2

theorem completed_tasks_excluded_witness :
    wEntry ∈ fetch_tasks_with_videos (some okCred) wPages
    ∧ wEntry.status ≠ "completed" :=
  ⟨by decide, completed_tasks_excluded (some okCred) wPages wEntry (by decide)⟩

/-- C3: pagination is exhaustive.  With the paginated task API modelled as
the chain of responses the server hands out (requesting again exactly while
a continuation token is present), whenever every response except the last
carries a token — for the task-list enumeration and for each list's task
enumeration alike — `fetch_tasks_with_videos` processes exactly the items
of all pages: it equals the reference `fetchTasksAllPages`, so no item on a
later page is omitted. -/
theorem pagination_exhaustive (cred : Option Cred)
    (tlPages : List (List SrcTaskList × Bool))
    (h1 : allLinked tlPages = true)
    (h2 : ∀ tl ∈ (tlPages.map Prod.fst).flatten, allLinked tl.taskPages = true) :
    fetch_tasks_with_videos cred tlPages = fetchTasksAllPages cred tlPages := by
  cases cred with
  | none => rfl
  | some c =>
    show processLists (collectPages tlPages)
      = (((tlPages.map Prod.fst).flatten).map
          (fun tl => ((tl.taskPages.map Prod.fst).flatten).filterMap
            (processTask tl.title))).flatten
    unfold processLists
    rw [collectPages_linked _ h1]
    exact congrArg List.flatten (List.map_congr_left (fun tl htl => by
      rw [collectPages_linked _ (h2 tl htl)]))

theorem pagination_exhaustive_witness :
    fetch_tasks_with_videos (some okCred) pgPages
      = fetchTasksAllPages (some okCred) pgPages :=
  pagination_exhaustive (some okCred) pgPages (by decide) (by decide)

/-- C7 corrected: when no credential is supplied (the Python `None`), both
operations return an empty result set without raising; the validity or
expiry of a supplied credential is not checked by either operation. -/
theorem none_credential_empty :
    (∀ tlPages, fetch_tasks_with_videos none tlPages = [])
    ∧ (∀ (ε : Type) (api : List String → Except ε (List RespItem))
        (ids : List String), get_video_details none api ids = .ok []) :=
  ⟨fun _ => rfl, fun _ _ _ => rfl⟩

/-- C7 counterexample: a supplied credential that is expired and invalid is
not rejected — `fetch_tasks_with_videos` proceeds and returns a non-empty
result (and `get_video_details` proceeds to issue its batches), contradicting
the claim that an invalid credential yields an empty result set. -/
theorem invalid_credential_not_checked :
    badCred.valid = false
    ∧ fetch_tasks_with_videos (some badCred) wPages = [wEntry]
    ∧ get_video_details (ε := Unit) (some badCred) (fun _ => .ok [itemA]) ["a"]
      = .ok [("a", detailOf itemA)] := by
  refine ⟨rfl, by decide, ?_⟩
  rfl

theorem batchesGo_nil (n : Nat) : batchesGo n [] = [] := by
  cases n <;> rfl

theorem batchesGo_cons (n : Nat) (a : String) (t : List String) :
    batchesGo (n + 1) (a :: t) = (a :: t).take 50 :: batchesGo n ((a :: t).drop 50) :=
  rfl

theorem batchesGo_mem : ∀ (fuel : Nat) (l : List String) (b : List String),
    b ∈ batchesGo fuel l → b.length ≤ 50 ∧ b ≠ [] := by
  intro fuel
  induction fuel with
  | zero => intro l b h; exact absurd h (by simp [batchesGo])
  | succ n ih =>
    intro l b h
    cases l with
    | nil => exact absurd h (by simp [batchesGo])
    | cons a t =>
      rw [batchesGo_cons] at h
      rcases List.mem_cons.mp h with rfl | h2
      · exact ⟨by simp, by simp [List.take_succ_cons]⟩
      · exact ih _ _ h2

theorem batchesGo_flatten : ∀ (fuel : Nat) (l : List String), l.length ≤ fuel →
    (batchesGo fuel l).flatten = l := by
  intro fuel
  induction fuel with
  | zero =>
    intro l hl
    have : l = [] := List.eq_nil_of_length_eq_zero (Nat.le_zero.mp hl)
    subst this
    rfl
  | succ n ih =>
    intro l hl
    cases l with
    | nil => rfl
    | cons a t =>
      rw [batchesGo_cons, List.flatten_cons,
        ih ((a :: t).drop 50) (by simp at hl ⊢; omega)]
      exact List.take_append_drop 50 (a :: t)

/-- C1 amended: `get_video_details` does not deduplicate; it issues its
lookups over the given identifier list exactly as supplied, split into
consecutive batches that are non-empty and never exceed 50, whose
concatenation is the input; in particular an input of 120 identifiers
(unique or not) yields exactly 3 batched calls of sizes 50, 50 and 20. -/
theorem batches_sound (ids : List String) :
    (∀ b ∈ batches50 ids, b.length ≤ 50 ∧ b ≠ [])
    ∧ (batches50 ids).flatten = ids
    ∧ (ids.length = 120 → (batches50 ids).map List.length = [50, 50, 20]) := by
  refine ⟨fun b hb => batchesGo_mem _ _ b hb, batchesGo_flatten _ _ le_rfl, ?_⟩
  intro h120
  have h0 : ids ≠ [] := by intro e; rw [e] at h120; simp at h120
  have e1 : (ids.drop 50).length = 70 := by simp [h120]
  have h1 : ids.drop 50 ≠ [] := by
    intro e; rw [e] at e1; simp at e1
  have e2 : ((ids.drop 50).drop 50).length = 20 := by simp [h120]
  have h2 : (ids.drop 50).drop 50 ≠ [] := by
    intro e; rw [e] at e2; simp at e2
  have e3 : ((ids.drop 50).drop 50).drop 50 = [] :=
    List.eq_nil_of_length_eq_zero (by simp [h120])
  obtain ⟨a, t, rfl⟩ := List.exists_cons_of_ne_nil h0
  obtain ⟨a1, t1, eb1⟩ := List.exists_cons_of_ne_nil h1
  obtain ⟨a2, t2, eb2⟩ := List.exists_cons_of_ne_nil h2
  rw [batches50, h120]
  rw [show (120 : Nat) = 119 + 1 from rfl, batchesGo_cons]
  rw [eb1, batchesGo_cons, ← eb1]
  rw [eb2, batchesGo_cons, ← eb2]
  rw [e3, batchesGo_nil]
  simp only [List.map_cons, List.map_nil, List.length_take, List.length_drop, h120]
  decide

theorem batches_sound_witness :
    ((List.replicate 120 "x" : List String).length = 120)
    ∧ (batches50 (List.replicate 120 "x")).map List.length = [50, 50, 20]
    ∧ (List.replicate 50 "x" ∈ batches50 (List.replicate 120 "x"))
    ∧ (List.replicate 50 "x" : List String).length ≤ 50
    ∧ (List.replicate 50 "x" : List String) ≠ [] := by
  refine ⟨by decide, (batches_sound (List.replicate 120 "x")).2.2 (by decide),
    by decide, ?_⟩
  exact (batches_sound (List.replicate 120 "x")).1 (List.replicate 50 "x") (by decide)

/-- C1 counterexample: on fifty-one copies of `"a"`, `get_video_details`
issues two batched calls (of sizes 50 and 1), while a deduplicate-first
procedure (the spec's reading, any order of the deduplicated set) issues
a single call over the lone identifier. -/
theorem batches_no_dedup_counterexample :
    (batches50 (List.replicate 51 "a")).length = 2
    ∧ (resolveBatchesSpec (List.replicate 51 "a")).length = 1
    ∧ batches50 (List.replicate 51 "a") ≠ resolveBatchesSpec (List.replicate 51 "a") := by
  decide

theorem gvdRun_ok {ε : Type} (api : List String → Except ε (List RespItem)) :
    ∀ (bs : List (List String)) (acc : List (String × VideoDetail)),
      (∀ b ∈ bs, ∃ r, api b = .ok r) → ∃ m, gvdRun api acc bs = .ok m := by
  intro bs
  induction bs with
  | nil => intro acc _; exact ⟨acc, rfl⟩
  | cons b rest ih =>
    intro acc h
    obtain ⟨r, hr⟩ := h b (by simp)
    have : gvdRun api acc (b :: rest)
        = gvdRun api (acc ++ r.map (fun it => (it.id, detailOf it))) rest := by
      simp [gvdRun, hr]
    rw [this]
    exact ih _ (fun b2 hb2 => h b2 (by simp [hb2]))

theorem gvdRun_error {ε : Type} (api : List String → Except ε (List RespItem)) :
    ∀ (bs : List (List String)) (acc : List (String × VideoDetail)),
      (∃ b ∈ bs, ∃ e, api b = .error e) → ∃ e, gvdRun api acc bs = .error e := by
  intro bs
  induction bs with
  | nil => intro acc h; simp at h
  | cons b rest ih =>
    intro acc h
    cases hb : api b with
    | error e => exact ⟨e, by simp [gvdRun, hb]⟩
    | ok r =>
      have : gvdRun api acc (b :: rest)
          = gvdRun api (acc ++ r.map (fun it => (it.id, detailOf it))) rest := by
        simp [gvdRun, hb]
      rw [this]
      apply ih
      obtain ⟨b2, hb2, e, he⟩ := h
      rcases List.mem_cons.mp hb2 with rfl | hmem
      · rw [hb] at he; exact absurd he (by simp)
      · exact ⟨b2, hmem, e, he⟩

/-- C2 amended: batch failures abort the whole call.  With a credential
supplied, if every batch succeeds the call returns the accumulated mapping,
but if any batch fails the call propagates an error and no mapping — in
particular none of the results of earlier successful batches — is made
available to the caller. -/
theorem batch_failure_aborts {ε : Type} (c : Cred)
    (api : List String → Except ε (List RespItem)) (ids : List String) :
    ((∀ b ∈ batches50 ids, ∃ r, api b = .ok r) →
      ∃ m, get_video_details (some c) api ids = .ok m)
    ∧ ((∃ b ∈ batches50 ids, ∃ e, api b = .error e) →
      ∃ e, get_video_details (some c) api ids = .error e) := by
  constructor
  · intro h
    unfold get_video_details
    split
    · exact ⟨[], rfl⟩
    · exact gvdRun_ok api _ [] h
  · intro h
    unfold get_video_details
    split
    · next hguard =>
      simp only [Option.isNone_some, Bool.false_or, List.isEmpty_iff] at hguard
      rw [hguard] at h
      simp [batches50, batchesGo_nil] at h
    · exact gvdRun_error api _ [] h

theorem batch_failure_aborts_witness :
    (∃ b ∈ batches50 ids51, ∃ e, apiOneBad b = .error e)
    ∧ ∃ e, get_video_details (some badCred) apiOneBad ids51 = .error e :=
  ⟨⟨["b"], by decide, (), rfl⟩,
    (batch_failure_aborts badCred apiOneBad ids51).2 ⟨["b"], by decide, (), rfl⟩⟩

/-- C2 counterexample: on `ids51` the first batch (fifty copies of `"a"`)
succeeds and resolves `"a"`, yet because the second batch fails the whole
call returns an error carrying no mapping at all — the result of the prior
successful batch is discarded, contradicting the claimed partial-success
policy. -/
theorem partial_results_discarded_counterexample :
    apiOneBad (List.replicate 50 "a") = .ok [itemA]
    ∧ get_video_details (some okCred) apiOneBad ids51 = .error () := by
  constructor
  · rfl
  · rfl

theorem sortByKey_sorted (key : Entry → Nat) (l : List Entry) :
    List.Pairwise (fun a b => key a ≤ key b) (sortByKey key l) := by
  letI : DecidableRel (fun a b : Entry => key a ≤ key b) :=
    fun a b => inferInstanceAs (Decidable (key a ≤ key b))
  haveI : IsTotal Entry (fun a b : Entry => key a ≤ key b) :=
    ⟨fun a b => Nat.le_total (key a) (key b)⟩
  haveI : IsTrans Entry (fun a b : Entry => key a ≤ key b) :=
    ⟨fun _ _ _ h1 h2 => le_trans h1 h2⟩
  exact List.sorted_insertionSort _ l

theorem sortByKey_stable (key : Entry → Nat) (l : List Entry) (k : Nat) :
    (sortByKey key l).filter (fun t => key t == k)
      = l.filter (fun t => key t == k) := by
  letI : DecidableRel (fun a b : Entry => key a ≤ key b) :=
    fun a b => inferInstanceAs (Decidable (key a ≤ key b))
  have hperm : List.Perm (sortByKey key l) l := List.perm_insertionSort _ l
  have hpw : (l.filter (fun t => key t == k)).Pairwise (fun a b => key a ≤ key b) := by
    apply List.pairwise_of_forall_mem_list
    intro a ha b hb
    have ea : key a = k := by simpa using (List.mem_filter.mp ha).2
    have eb : key b = k := by simpa using (List.mem_filter.mp hb).2
    rw [ea, eb]
  have hsub : List.Sublist (l.filter (fun t => key t == k)) (sortByKey key l) :=
    List.sublist_insertionSort hpw (List.filter_sublist l)
  have hsub2 : List.Sublist
      ((l.filter (fun t => key t == k)).filter (fun t => key t == k))
      ((sortByKey key l).filter (fun t => key t == k)) :=
    List.Sublist.filter _ hsub
  rw [List.filter_filter] at hsub2
  have hsame : (l.filter (fun t => (key t == k) && (key t == k)))
      = l.filter (fun t => key t == k) := by
    apply List.filter_congr
    intro a _
    simp [Bool.and_self]
  rw [hsame] at hsub2
  have hlen : ((sortByKey key l).filter (fun t => key t == k)).length
      = (l.filter (fun t => key t == k)).length :=
    (hperm.filter _).length_eq
  exact (List.Sublist.eq_of_length hsub2 hlen.symm).symm

/-- C8: sorting with criterion `"Duration"` (app_ui.py `sort_tasks`, the
variant whose key sums the parsed seconds over the task's resolved videos)
yields a sequence on which the per-task duration sum `durKey` is
monotonically non-decreasing, and it is stable: for every key value the
subsequence of tasks having that duration sum is exactly the one of the
input, in the original order. -/
theorem duration_sort_sorted_stable (shuf : List Entry → List Entry)
    (tasks : List Entry) (vd : String → Option VideoDetail) :
    List.Pairwise (fun a b => durKey vd a ≤ durKey vd b)
      (sort_tasks shuf tasks vd "Duration")
    ∧ ∀ k, (sort_tasks shuf tasks vd "Duration").filter (fun t => durKey vd t == k)
        = tasks.filter (fun t => durKey vd t == k) := by
  have e : sort_tasks shuf tasks vd "Duration" = sortByKey (durKey vd) tasks := rfl
  rw [e]
  exact ⟨sortByKey_sorted _ _, fun k => sortByKey_stable _ _ k⟩

/-- C10: for every criterion string outside the five recognized values,
both `sort_tasks` variants leave the task sequence completely unchanged
(and neither raises: the main.py variant returns `some`). -/
theorem unknown_criterion_identity (shuf : List Entry → List Entry)
    (tasks : List Entry) (vd : String → Option VideoDetail) (criteria : String)
    (h : criteria ∉ (["Alphabetical", "Task List", "Duration", "Channel",
      "Shuffle"] : List String)) :
    sort_tasks shuf tasks vd criteria = tasks
    ∧ sort_tasks_main shuf tasks vd criteria = some tasks := by
  simp only [List.mem_cons, List.not_mem_nil, or_false, not_or] at h
  obtain ⟨h1, h2, h3, h4, h5⟩ := h
  constructor
  · unfold sort_tasks
    simp [h1, h2, h3, h4, h5]
  · unfold sort_tasks_main
    simp [h1, h2, h3, h4, h5]

theorem unknown_criterion_identity_witness :
    ("Recently Added" ∉ (["Alphabetical", "Task List", "Duration", "Channel",
      "Shuffle"] : List String))
    ∧ sort_tasks id [wEntry] (fun _ => none) "Recently Added" = [wEntry]
    ∧ sort_tasks_main id [wEntry] (fun _ => none) "Recently Added" = some [wEntry] :=
  ⟨by decide, (unknown_criterion_identity id [wEntry] (fun _ => none)
    "Recently Added" (by decide)).1,
   (unknown_criterion_identity id [wEntry] (fun _ => none)
    "Recently Added" (by decide)).2⟩

end YtGt
